import Mathlib

/-!
# Verification of the ileapApp conversation/messaging engine

Shallow embedding of the messaging core of the repository:
the Mongoose data model ( `src/server/models/Message.ts` , `src/server/models/Group.ts` ,
`OpportunityMentor` ) and the Express route handlers of `src/server/middleware/upload.ts`
(conversation aggregation, cursor pagination, read-state tracking, group
membership and permission rules).

Object ids are modelled as `Nat` , monotonically increasing with creation time
(as Mongo ObjectIds are). Timestamps are `Nat` . The message store is a
`List Message` . Fallible route handlers return `Except ApiError _` , where
`ApiError` captures the HTTP status class the handler responds with.
-/

namespace ILeap

/-- User identifier ( `_id` of a `user` document). -/
abbrev UserId := Nat

/-- Group identifier ( `_id` of a `group` document). -/
abbrev GroupId := Nat

/-- Opportunity identifier. -/
abbrev OppId := Nat

/-- Message identifier ( `_id` of a `message` document); monotone in creation time. -/
abbrev MsgId := Nat

/-- The `role` field of a `user` document: a loosely typed string in the source,
one of the four known values or absent ( `unset` ). -/
inductive Role where
  | volunteer
  | organization
  | admin
  | mentor
  | unset
deriving DecidableEq, Repr

/-- Error classes of the route handlers, by HTTP status:
`badRequest` = 400 (validation / constraint), `forbidden` = 403 (permission),
`notFound` = 404. -/
inductive ApiError where
  | badRequest
  | forbidden
  | notFound
deriving DecidableEq, Repr

instance {ε α : Type _} [DecidableEq ε] [DecidableEq α] : DecidableEq (Except ε α) := fun
  | .ok a, .ok b =>
    if h : a = b then .isTrue (by rw [h]) else .isFalse (by simp [h])
  | .ok _, .error _ => .isFalse (by simp)
  | .error _, .ok _ => .isFalse (by simp)
  | .error e, .error f =>
    if h : e = f then .isTrue (by rw [h]) else .isFalse (by simp [h])

/-- `isOk` of a success. -/
@[simp]
theorem except_isOk_ok {ε α : Type _} (a : α) :
    (Except.ok a : Except ε α).isOk = true := rfl

/-- `isOk` of a failure. -/
@[simp]
theorem except_isOk_error {ε α : Type _} (e : ε) :
    (Except.error e : Except ε α).isOk = false := rfl

/-- One entry of a message's `readBy` log: `{ user, readAt }` . -/
structure ReadEntry where
  user : UserId
  readAt : Nat
deriving DecidableEq, Repr

/-- A `message` document as used by the routes: `sender` required,
`receiver` and `group` optional references, `content` , the direct-message
`isRead` flag (default `false` ) and the `readBy` log (default `[]` ).
Media fields are omitted: they are opaque payload never inspected by the
conversation engine. -/
structure Message where
  id : MsgId
  sender : UserId
  receiver : Option UserId
  group : Option GroupId
  content : String
  isRead : Bool
  readBy : List ReadEntry
  createdAt : Nat
deriving DecidableEq, Repr

/-- A raw candidate document presented to the `message` schema, before
validation: every field that the schema could require is optional here. -/
structure MessageDoc where
  sender : Option UserId
  receiver : Option UserId
  group : Option GroupId
  content : Option String
deriving DecidableEq, Repr

/-- Validation imposed by `messageSchema` ( `src/server/models/Message.ts` ):
`sender` has `required: true` and `content` has `required: true` , while
`receiver` and `group` both have `required: false` . The schema declares no
validator relating `receiver` and `group` . -/
def messageSchemaValidates (d : MessageDoc) : Bool :=
  d.sender.isSome && d.content.isSome

/-- An `opportunity_mentor` document restricted to the fields the messaging
routes consult: the `(opportunity, volunteer)` pair (unique-indexed). -/
structure MentorAssignment where
  opportunity : OppId
  volunteer : UserId
deriving DecidableEq, Repr

/-- The `opportunity_mentor` collection. -/
abbrev MentorDb := List MentorAssignment

/-- `OpportunityMentor.findOne({ volunteer, opportunity })` succeeds. -/
def hasMentorFor (db : MentorDb) (v : UserId) (o : OppId) : Bool :=
  db.any (fun a => a.volunteer == v && a.opportunity == o)

/-- `OpportunityMentor.findOne({ volunteer })` succeeds (any opportunity). -/
def hasAnyMentor (db : MentorDb) (v : UserId) : Bool :=
  db.any (fun a => a.volunteer == v)

/-- A `group` document: `name` , optional `description` , `members` , `admins` ,
`createdBy` , the organization-group flag and optional `opportunityId` . -/
structure Group where
  id : GroupId
  name : String
  description : Option String
  members : List UserId
  admins : List UserId
  createdBy : UserId
  isOrganizationGroup : Bool
  opportunityId : Option OppId
deriving DecidableEq, Repr

/-! ## Sending direct messages ( `POST /messages` ) -/

/-- `Message.findOne` over the two directions of the (sender, receiver) pair:
does any prior message exist in this 1:1 thread? -/
def hasPriorMessage (s r : UserId) (store : List Message) : Bool :=
  store.any (fun m =>
    (m.sender == s && m.receiver == some r) || (m.sender == r && m.receiver == some s))

/-- `canInitiate` of `POST /messages` : only these roles may start a new thread. -/
def canInitiate (r : Role) : Bool :=
  r == .organization || r == .admin || r == .mentor

/-- `POST /messages { receiverId, content }` (no media in the model): validates
the payload, rejects a first message from a non-initiating role with 403, and
otherwise appends the new message ( `isRead` defaults to `false` , `readBy` to
`[]` ). The sender's role is passed in place of the `User.findById` lookup. -/
def sendDirectMessage (store : List Message) (senderId : UserId) (senderRole : Role)
    (receiverId : UserId) (content : String) (newId now : Nat) :
    Except ApiError (List Message) :=
  if content = "" then
    .error .badRequest
  else if !hasPriorMessage senderId receiverId store && !canInitiate senderRole then
    .error .forbidden
  else
    .ok (store ++ [{ id := newId, sender := senderId, receiver := some receiverId,
                     group := none, content := content, isRead := false,
                     readBy := [], createdAt := now }])

/-! ## Sending group messages ( `POST /groups/:groupId/messages` ) -/

/-- `POST /groups/:groupId/messages { content }` : requires non-empty content,
requires the sender to be a member ( `Group.findOne({ _id, members })` , 404
otherwise) and appends a group message whose `readBy` log is initialised with
the author ( `readBy: [{ user: currentUserId }]` ). -/
def sendGroupMessage (g : Group) (senderId : UserId) (content : String)
    (newId now : Nat) (store : List Message) : Except ApiError (List Message) :=
  if content = "" then
    .error .badRequest
  else if !(g.members.any (fun x => x == senderId)) then
    .error .notFound
  else
    .ok (store ++ [{ id := newId, sender := senderId, receiver := none,
                     group := some g.id, content := content, isRead := false,
                     readBy := [{ user := senderId, readAt := now }], createdAt := now }])

/-! ## Reverse-chronological store order -/

/-- `a` sorts no later than `b` under `.sort({ createdAt: -1 })` . -/
def MsgGe (a b : Message) : Prop := b.createdAt ≤ a.createdAt

instance : DecidableRel MsgGe := fun a b =>
  inferInstanceAs (Decidable (b.createdAt ≤ a.createdAt))

instance : IsTotal Message MsgGe := ⟨fun a b => Nat.le_total b.createdAt a.createdAt⟩

instance : IsTrans Message MsgGe := ⟨fun _ _ _ h1 h2 => Nat.le_trans h2 h1⟩

/-- The store's `.sort({ createdAt: -1 })` : creation timestamp descending
(a deterministic stable sort models Mongo's sort, whose order on equal
timestamps is unspecified). -/
def sortByCreatedAtDesc (msgs : List Message) : List Message :=
  msgs.insertionSort MsgGe

/-! ## Cursor pagination ( `GET /messages/:userId` , `GET /groups/:groupId/messages` )

Both routes share the same engine: filter the thread, add `_id: { $lt: cursor }`
when a cursor is supplied, sort by `createdAt` descending, fetch `limit + 1`
rows; if the extra row exists, `pop()` it, expose its `_id` as `nextCursor` ,
and return the remaining window reversed (oldest first). -/

/-- One page fetch over an already thread-filtered message list. -/
def getMessagesPage (thread : List Message) (limit : Nat) (cursor : Option MsgId) :
    List Message × Option MsgId :=
  let q := match cursor with
    | none => thread
    | some c => thread.filter (fun m => m.id < c)
  let window := (sortByCreatedAtDesc q).take (limit + 1)
  if limit < window.length then
    (window.dropLast.reverse, window.getLast?.map Message.id)
  else
    (window.reverse, none)

/-- Repeatedly re-fetch with the returned `nextCursor` , concatenating the
pages in order; `fuel` bounds the number of round trips. -/
def collectPages (thread : List Message) (limit : Nat) :
    Option MsgId → Nat → List Message
  | _, 0 => []
  | cursor, fuel + 1 =>
    match getMessagesPage thread limit cursor with
    | (page, none) => page
    | (page, some c) => page ++ collectPages thread limit (some c) fuel

/-! ## Read-state tracking -/

/-- The bulk update of `GET /messages/:userId` : every message matching
`{ sender: other, receiver: current, isRead: false }` gets
`$set: { isRead: true }` and `$push: { readBy: { user: current, readAt: now } }` . -/
def markMessagesRead (current other : UserId) (now : Nat) (store : List Message) :
    List Message :=
  store.map (fun m =>
    if m.sender == other && m.receiver == some current && m.isRead == false then
      { m with isRead := true, readBy := m.readBy ++ [{ user := current, readAt := now }] }
    else m)

/-- The bulk update of `POST /conversations/:conversationId/read` : same match
as `markMessagesRead` but only `$set: { isRead: true }` — no `readBy` push. -/
def markConversationRead (current other : UserId) (store : List Message) :
    List Message :=
  store.map (fun m =>
    if m.sender == other && m.receiver == some current && m.isRead == false then
      { m with isRead := true }
    else m)

/-- The bulk update of `GET /groups/:groupId/messages` : every message of the
group whose `readBy` log lacks the current user gets a `readBy` entry pushed. -/
def markGroupMessagesRead (g : GroupId) (u : UserId) (now : Nat) (store : List Message) :
    List Message :=
  store.map (fun m =>
    if m.group == some g && !(m.readBy.any (fun e => e.user == u)) then
      { m with readBy := m.readBy ++ [{ user := u, readAt := now }] }
    else m)

/-- The per-group unread count of `GET /groups` :
`Message.countDocuments({ group, readBy.user: { $ne: u }, sender: { $ne: u } })` .
On the array field `readBy.user` , `$ne` matches documents where no entry
equals `u` . -/
def groupUnreadCount (g : GroupId) (u : UserId) (store : List Message) : Nat :=
  store.countP (fun m =>
    m.group == some g && !(m.readBy.any (fun e => e.user == u)) && !(m.sender == u))

/-! ## Conversation aggregation ( `GET /conversations` )

The pipeline: `$match` non-group messages where the user is sender or
receiver, `$sort { createdAt: -1 }` , `$group` by the other party taking
`$first` as the last message and summing the unread flag. The fold below
processes the sorted stream exactly as `$group` consumes it. -/

/-- The `$match` stage: user is sender or receiver, `group: { $exists: false }` . -/
def convMatch (u : UserId) (m : Message) : Bool :=
  (m.sender == u || m.receiver == some u) && m.group == none

/-- The `$group` key: `$cond [{ $eq: [sender, u] }, receiver, sender]` . -/
def otherParty (u : UserId) (m : Message) : Option UserId :=
  if m.sender = u then m.receiver else some m.sender

/-- The summand of the `unreadCount` accumulator:
`$cond [{ receiver = u ∧ isRead = false }, 1, 0]` . -/
def unreadFlag (u : UserId) (m : Message) : Nat :=
  if m.receiver = some u ∧ m.isRead = false then 1 else 0

/-- One output row of the aggregation: group key, `$first` message, unread sum. -/
structure ConvEntry where
  key : Option UserId
  lastMessage : Message
  unreadCount : Nat
deriving DecidableEq, Repr

/-- Add a document's unread flag to the accumulator row of its key; rows of
other keys are unchanged ( `$first` keeps the already seen last message). -/
def bumpConv (u : UserId) (k : Option UserId) (m : Message) (e : ConvEntry) :
    ConvEntry :=
  if e.key == k then { e with unreadCount := e.unreadCount + unreadFlag u m }
  else e

/-- Feed one document of the sorted stream into the `$group` accumulator. -/
def insertConv (u : UserId) (acc : List ConvEntry) (m : Message) : List ConvEntry :=
  if acc.any (fun e => e.key == otherParty u m) then
    acc.map (bumpConv u (otherParty u m) m)
  else
    acc ++ [{ key := otherParty u m, lastMessage := m, unreadCount := unreadFlag u m }]

/-- The whole `GET /conversations` aggregation for user `u` . -/
def getConversations (u : UserId) (store : List Message) : List ConvEntry :=
  (sortByCreatedAtDesc (store.filter (convMatch u))).foldl (insertConv u) []

/-- Look up the aggregation row of a given key. -/
def convFind (acc : List ConvEntry) (k : Option UserId) : Option ConvEntry :=
  acc.find? (fun e => e.key == k)

/-- The claim-side description of the 1:1 thread between `u` and counterparty
`k` : non-group messages sent by `u` to `k` or by `k` to `u` . -/
def inPairThread (u k : UserId) (m : Message) : Bool :=
  m.group == none &&
    ((m.sender == u && m.receiver == some k) || (m.sender == k && m.receiver == some u))

/-! ## Group operations -/

/-- Keep-first deduplication, as
`Array.from(new Set(allMemberIds.map(id => id.toString())))` behaves. -/
def dedupKeepFirst : List UserId → List UserId
  | [] => []
  | x :: xs => x :: (dedupKeepFirst xs).filter (fun y => y ≠ x)

/-- The permission disjunction shared by the update / add-members /
remove-member / delete-group handlers: actor has `admin` or `organization`
role, or is in the group's `admins` , or is the group's creator, or (volunteer
role, group has a linked opportunity) holds a mentor assignment for it. -/
def canManageGroup (db : MentorDb) (actor : UserId) (role : Role) (g : Group) : Bool :=
  (role == .admin || role == .organization)
  || g.admins.any (fun a => a == actor)
  || g.createdBy == actor
  || (match g.opportunityId with
      | some o => role == .volunteer && hasMentorFor db actor o
      | none => false)

/-- The `mentorIds` of `POST /groups` : when an opportunity is named, the
deduplicated members holding a mentor assignment for it (the
`OpportunityMentor.find({ volunteer: { $in: uniqueMemberIds }, opportunity })`
query); otherwise empty. -/
def mentorIdsOf (db : MentorDb) (uniqueMemberIds : List UserId) :
    Option OppId → List UserId
  | some o => uniqueMemberIds.filter (fun v => hasMentorFor db v o)
  | none => []

/-- The construction tail of `POST /groups` , after the role gate: rejects an
organization group from a non-admin, dedups `memberIds ++ [creator]` , promotes
opportunity mentors among the members to admins, and builds the group.
`admins` models `[...new Set([currentUserId, ...mentorIds])]` : the spread
dedups ObjectId values by object reference, and `currentUserId` and each
`assignment.volunteer` are distinct freshly constructed objects, so every
element is kept even when the creator also appears among the mentors. -/
def createGroupBody (db : MentorDb) (actor : UserId) (role : Role) (newId : GroupId)
    (name : String) (description : Option String) (memberIds : List UserId)
    (isOrganizationGroup : Bool) (opportunityId : Option OppId) :
    Except ApiError Group :=
  if isOrganizationGroup && !(role == .admin) then
    .error .forbidden
  else
    .ok { id := newId, name := name, description := description,
          members := dedupKeepFirst (memberIds ++ [actor]),
          admins := actor ::
            mentorIdsOf db (dedupKeepFirst (memberIds ++ [actor])) opportunityId,
          createdBy := actor, isOrganizationGroup := isOrganizationGroup,
          opportunityId := opportunityId }

/-- `POST /groups` : payload validation ( `!name` is falsy for the empty
string), then the role gate — `admin` / `organization` unconditionally, a
`volunteer` only with a mentor assignment (for the named opportunity if one is
given, else for any), every other role denied — then `createGroupBody` . -/
def createGroup (db : MentorDb) (actor : UserId) (role : Role) (newId : GroupId)
    (name : String) (description : Option String) (memberIds : List UserId)
    (isOrganizationGroup : Bool) (opportunityId : Option OppId) :
    Except ApiError Group :=
  if name = "" then
    .error .badRequest
  else if role == .admin || role == .organization then
    createGroupBody db actor role newId name description memberIds
      isOrganizationGroup opportunityId
  else if role == .volunteer then
    match opportunityId with
    | some o =>
      if hasMentorFor db actor o then
        createGroupBody db actor role newId name description memberIds
          isOrganizationGroup (some o)
      else .error .forbidden
    | none =>
      if hasAnyMentor db actor then
        createGroupBody db actor role newId name description memberIds
          isOrganizationGroup none
      else .error .forbidden
  else
    .error .forbidden

/-- `PUT /groups/:groupId` : permission gate, then update of `name` /
`description` only. -/
def updateGroup (db : MentorDb) (actor : UserId) (role : Role)
    (name : Option String) (description : Option String) (g : Group) :
    Except ApiError Group :=
  if !(canManageGroup db actor role g) then
    .error .forbidden
  else
    .ok { g with name := name.getD g.name,
                 description := match description with
                   | some d => some d
                   | none => g.description }

/-- `POST /groups/:groupId/members` : non-empty payload, permission gate, then
append the ids not already members (duplicates inside the payload are kept, as
in the source filter against `existingMemberIds` only). -/
def addMembers (db : MentorDb) (actor : UserId) (role : Role)
    (memberIds : List UserId) (g : Group) : Except ApiError Group :=
  if memberIds.isEmpty then
    .error .badRequest
  else if !(canManageGroup db actor role g) then
    .error .forbidden
  else
    .ok { g with members :=
            g.members ++ memberIds.filter (fun x => !(g.members.any (fun e => e == x))) }

/-- `DELETE /groups/:groupId/members/:memberId` : permission gate, rejection of
removing the last admin ( `admins.length === 1 && admins[0] === memberId` ),
then removal from `members` and, when present there, from `admins` . -/
def removeMember (db : MentorDb) (actor : UserId) (role : Role)
    (memberId : UserId) (g : Group) : Except ApiError Group :=
  if !(canManageGroup db actor role g) then
    .error .forbidden
  else if g.admins.length == 1 && g.admins.head? == some memberId then
    .error .badRequest
  else
    .ok { g with
          members := g.members.filter (fun x => x ≠ memberId),
          admins := if g.admins.any (fun x => x == memberId) then
              g.admins.filter (fun x => x ≠ memberId)
            else g.admins }

/-- Group states reachable through the group operations, starting from a
creation, against a fixed mentor-assignment collection. -/
inductive Reachable (db : MentorDb) : Group → Prop
  | created (actor : UserId) (role : Role) (newId : GroupId) (name : String)
      (description : Option String) (memberIds : List UserId)
      (isOrganizationGroup : Bool) (opportunityId : Option OppId) (g : Group) :
      createGroup db actor role newId name description memberIds
        isOrganizationGroup opportunityId = .ok g →
      Reachable db g
  | updated (actor : UserId) (role : Role) (name description : Option String)
      (g g' : Group) : Reachable db g →
      updateGroup db actor role name description g = .ok g' →
      Reachable db g'
  | addedMembers (actor : UserId) (role : Role) (memberIds : List UserId)
      (g g' : Group) : Reachable db g →
      addMembers db actor role memberIds g = .ok g' →
      Reachable db g'
  | removedMember (actor : UserId) (role : Role) (memberId : UserId)
      (g g' : Group) : Reachable db g →
      removeMember db actor role memberId g = .ok g' →
      Reachable db g'

/-! ## Example data -/

/-- A plain direct message with the given id, sender, receiver and timestamp. -/
def mkDirect (i : MsgId) (s r : UserId) (t : Nat) : Message :=
  { id := i, sender := s, receiver := some r, group := none, content := "m",
    isRead := false, readBy := [], createdAt := t }

/-- A direct thread between users 1 and 2 with three messages, ids and
timestamps both increasing in creation order. -/
def exThreadC1 : List Message :=
  [mkDirect 1 1 2 1, mkDirect 2 2 1 2, mkDirect 3 1 2 3]

/-! ## C1: pagination completeness -/

/-- C1: the claim that repeatedly following `nextCursor` yields all N messages
with no gaps fails on the code. With N = 3 messages (ids 1, 2, 3) and page
size P = 2, the first page fetches 3 rows, pops the extra row (id 1) and
returns its id as the cursor; the next query filters `_id < 1` strictly, so
message 1 is returned by no page: the engine yields only messages 2 and 3.
The cursor row of every full page is silently skipped. -/
theorem pagination_misses_cursor_row :
    ((collectPages exThreadC1 2 none 5).map Message.id = [2, 3])
  ∧ ((getMessagesPage exThreadC1 2 none).2 = some 1)
  ∧ (∃ m ∈ exThreadC1, m.id = 1)
  ∧ (∀ m ∈ collectPages exThreadC1 2 none 5, m.id ≠ 1) := by decide

/-! ## C9: pagination stability under insertion -/

/-- C9: cursor-based paging is insertion-stable. If every message of the
thread has an id below the new message's id (ids are monotone in creation
time) and the cursor was issued as the id of some existing message, then the
page addressed by that cursor is unchanged by the insertion. -/
theorem pagination_insertion_stable (thread : List Message) (m : Message)
    (limit : Nat) (c : MsgId)
    (hnew : ∀ x ∈ thread, x.id < m.id) (hc : ∃ x ∈ thread, c = x.id) :
    getMessagesPage (m :: thread) limit (some c) =
      getMessagesPage thread limit (some c) := by
  obtain ⟨x, hx, rfl⟩ := hc
  have hxm : ¬ m.id < x.id := Nat.not_lt.mpr (Nat.le_of_lt (hnew x hx))
  have hfilter : List.filter (fun t => decide (t.id < x.id)) (m :: thread)
      = List.filter (fun t => decide (t.id < x.id)) thread := by
    simp [List.filter_cons, hxm]
  simp only [getMessagesPage, hfilter]

/-- Witness for C9 at a concrete thread, inserted message and cursor. -/
theorem pagination_insertion_stable_witness :
    getMessagesPage (mkDirect 5 1 2 5 :: [mkDirect 1 1 2 1]) 1 (some 1) =
      getMessagesPage [mkDirect 1 1 2 1] 1 (some 1) :=
  pagination_insertion_stable [mkDirect 1 1 2 1] (mkDirect 5 1 2 5) 1 1
    (by decide) ⟨mkDirect 1 1 2 1, by decide, by decide⟩

/-! ## C7: mutual exclusivity of receiver and group -/

/-- C7 counterexample: the claim says the store rejects a message with both
`receiver` and `group` set, or with neither set. `messageSchema` requires only
`sender` and `content` , so both documents pass schema validation. -/
theorem message_schema_accepts_both_and_neither :
    messageSchemaValidates
      { sender := some 1, receiver := some 2, group := some 7, content := some "hi" } = true
  ∧ messageSchemaValidates
      { sender := some 1, receiver := none, group := none, content := some "hi" } = true := by
  decide

/-- C7 amended: every message created through the send endpoints has exactly
one of `receiver` / `group` set — `POST /messages` always sets `receiver` and
leaves `group` absent, `POST /groups/:groupId/messages` the reverse — but the
schema itself does not reject a document with both or neither. -/
theorem message_target_exclusive_via_endpoints :
    (∀ (store : List Message) (senderId : UserId) (role : Role)
       (receiverId : UserId) (content : String) (newId now : Nat)
       (store' : List Message),
       sendDirectMessage store senderId role receiverId content newId now = .ok store' →
       ∀ m ∈ store', m ∈ store ∨ (m.receiver.isSome ∧ m.group = none))
  ∧ (∀ (g : Group) (senderId : UserId) (content : String) (newId now : Nat)
       (store store' : List Message),
       sendGroupMessage g senderId content newId now store = .ok store' →
       ∀ m ∈ store', m ∈ store ∨ (m.group.isSome ∧ m.receiver = none)) := by
  constructor
  · intro store senderId role receiverId content newId now store' h m hm
    simp only [sendDirectMessage] at h
    split at h
    · exact absurd h (by simp)
    split at h
    · exact absurd h (by simp)
    injection h with h
    subst h
    rcases List.mem_append.mp hm with hl | hr
    · exact Or.inl hl
    · rcases List.mem_singleton.mp hr with rfl
      exact Or.inr ⟨rfl, rfl⟩
  · intro g senderId content newId now store store' h m hm
    simp only [sendGroupMessage] at h
    split at h
    · exact absurd h (by simp)
    split at h
    · exact absurd h (by simp)
    injection h with h
    subst h
    rcases List.mem_append.mp hm with hl | hr
    · exact Or.inl hl
    · rcases List.mem_singleton.mp hr with rfl
      exact Or.inr ⟨rfl, rfl⟩

/-- Witness for the amended C7 at a concrete direct send into an empty store. -/
theorem message_target_exclusive_witness :
    ({ id := 10, sender := 1, receiver := some 2, group := none, content := "hi",
       isRead := false, readBy := [], createdAt := 5 } : Message) ∈ ([] : List Message)
    ∨ (({ id := 10, sender := 1, receiver := some 2, group := none, content := "hi",
          isRead := false, readBy := [], createdAt := 5 } : Message).receiver.isSome
       ∧ ({ id := 10, sender := 1, receiver := some 2, group := none, content := "hi",
            isRead := false, readBy := [], createdAt := 5 } : Message).group = none) :=
  message_target_exclusive_via_endpoints.1 [] 1 .admin 2 "hi" 10 5
    [{ id := 10, sender := 1, receiver := some 2, group := none, content := "hi",
       isRead := false, readBy := [], createdAt := 5 }]
    (by decide)
    { id := 10, sender := 1, receiver := some 2, group := none, content := "hi",
      isRead := false, readBy := [], createdAt := 5 }
    (by decide)

/-! ## C8: who may start a 1:1 thread -/

/-- C8: with a non-empty payload, `POST /messages` is rejected with a
permission error exactly when no prior message exists in either direction and
the sender's role is none of organization / admin / mentor; and whenever a
prior message exists the send succeeds for every role. -/
theorem send_message_permission (store : List Message) (senderId : UserId)
    (role : Role) (receiverId : UserId) (content : String) (newId now : Nat)
    (hcontent : content ≠ "") :
    (sendDirectMessage store senderId role receiverId content newId now
        = .error .forbidden
      ↔ hasPriorMessage senderId receiverId store = false
        ∧ role ≠ .organization ∧ role ≠ .admin ∧ role ≠ .mentor)
  ∧ (hasPriorMessage senderId receiverId store = true →
      sendDirectMessage store senderId role receiverId content newId now
        = .ok (store ++ [{ id := newId, sender := senderId,
                           receiver := some receiverId, group := none,
                           content := content, isRead := false, readBy := [],
                           createdAt := now }])) := by
  constructor
  · rcases h1 : hasPriorMessage senderId receiverId store <;> cases role <;>
      simp [sendDirectMessage, canInitiate, h1, hcontent]
  · intro h1
    simp [sendDirectMessage, h1, hcontent]

/-- Witness for C8: a volunteer opening a fresh thread is rejected with a
permission error. -/
theorem send_message_permission_witness :
    sendDirectMessage [] 1 Role.volunteer 2 "hi" 10 5 = .error .forbidden :=
  (send_message_permission [] 1 Role.volunteer 2 "hi" 10 5 (by decide)).1.mpr
    (by decide)

/-! ## C5: direct-thread read tracking -/

/-- The unread count user `u` sees for the 1:1 thread with counterparty `k` ,
as the conversation aggregation computes it: messages of the pair-thread
where `u` is the receiver and the message is unread. -/
def directUnreadCount (u k : UserId) (store : List Message) : Nat :=
  store.countP (fun m => inPairThread u k m && m.receiver == some u && !m.isRead)

/-- If a message of the (a, b) pair-thread has receiver `a` , its sender is `b` . -/
theorem sender_of_inPairThread {a b : UserId} {m : Message}
    (h1 : inPairThread a b m = true) (h2 : m.receiver = some a) : m.sender = b := by
  simp only [inPairThread, Bool.and_eq_true, Bool.or_eq_true, beq_iff_eq] at h1
  rcases h1.2 with ⟨hs, hr⟩ | ⟨hs, _⟩
  · rw [hs]
    exact Option.some.inj (h2.symm.trans hr)
  · exact hs

/-- C5: after user `a` fetches the thread with counterparty `b` , every unread
message from `b` to `a` is flipped to read with a `(a, now)` entry appended to
its `readBy` log, every other message is unchanged, `a` 's unread count for
the `b` -thread is 0, and it stays 0 under insertion of any message that is
not an unread message from `b` to `a` . -/
theorem direct_read_tracking (a b : UserId) (now : Nat) (store : List Message) :
    directUnreadCount a b (markMessagesRead a b now store) = 0
  ∧ (∀ m ∈ store, m.sender = b → m.receiver = some a → m.isRead = false →
      ({ m with isRead := true,
                readBy := m.readBy ++ [{ user := a, readAt := now }] } : Message)
        ∈ markMessagesRead a b now store)
  ∧ (∀ m ∈ store, ¬(m.sender = b ∧ m.receiver = some a ∧ m.isRead = false) →
      m ∈ markMessagesRead a b now store)
  ∧ (∀ mnew : Message,
      ¬(mnew.sender = b ∧ mnew.receiver = some a ∧ mnew.isRead = false) →
      directUnreadCount a b (mnew :: markMessagesRead a b now store) = 0) := by
  have hpred : ∀ mnew : Message,
      ¬(mnew.sender = b ∧ mnew.receiver = some a ∧ mnew.isRead = false) →
      (inPairThread a b mnew && mnew.receiver == some a && !mnew.isRead) = false := by
    intro mnew h
    by_contra hne
    have ht : (inPairThread a b mnew && mnew.receiver == some a && !mnew.isRead) = true :=
      eq_true_of_ne_false hne
    simp only [Bool.and_eq_true, beq_iff_eq, Bool.not_eq_true'] at ht
    exact h ⟨sender_of_inPairThread ht.1.1 ht.1.2, ht.1.2, ht.2⟩
  have hzero : directUnreadCount a b (markMessagesRead a b now store) = 0 := by
    unfold directUnreadCount markMessagesRead
    rw [List.countP_eq_zero]
    intro m hm
    rcases List.mem_map.mp hm with ⟨m0, _, rfl⟩
    by_cases h : (m0.sender == b && m0.receiver == some a && m0.isRead == false) = true
    · rw [if_pos h]
      simp
    · rw [if_neg h]
      intro hp
      simp only [Bool.and_eq_true, beq_iff_eq, Bool.not_eq_true'] at hp
      exact h (by
        simp only [Bool.and_eq_true, beq_iff_eq]
        exact ⟨⟨sender_of_inPairThread hp.1.1 hp.1.2, hp.1.2⟩, hp.2⟩)
  refine ⟨hzero, ?_, ?_, ?_⟩
  · intro m hm hs hr hread
    unfold markMessagesRead
    refine List.mem_map.mpr ⟨m, hm, ?_⟩
    rw [if_pos (by simp [hs, hr, hread])]
  · intro m hm h
    unfold markMessagesRead
    refine List.mem_map.mpr ⟨m, hm, ?_⟩
    rw [if_neg (by
      simp only [Bool.and_eq_true, beq_iff_eq]
      rintro ⟨⟨h1, h2⟩, h3⟩
      exact h ⟨h1, h2, h3⟩)]
  · intro mnew h
    unfold directUnreadCount
    rw [List.countP_cons, if_neg (by simp [hpred mnew h]), Nat.add_zero]
    exact hzero

/-- Witness for C5 on a one-message store: an unread message from user 2 to
user 1 is flipped and logged, and user 1's unread count drops to 0. -/
theorem direct_read_tracking_witness :
    directUnreadCount 1 2 (markMessagesRead 1 2 5 [mkDirect 1 2 1 3]) = 0
  ∧ ({ mkDirect 1 2 1 3 with
        isRead := true,
        readBy := (mkDirect 1 2 1 3).readBy ++ [{ user := 1, readAt := 5 }] } : Message)
      ∈ markMessagesRead 1 2 5 [mkDirect 1 2 1 3] :=
  ⟨(direct_read_tracking 1 2 5 [mkDirect 1 2 1 3]).1,
   (direct_read_tracking 1 2 5 [mkDirect 1 2 1 3]).2.1 (mkDirect 1 2 1 3)
     (by decide) (by decide) (by decide) (by decide)⟩

/-! ## C6: group unread counts -/

/-- A 3-member group used in the worked example: members 1, 2 and 3,
created and administered by user 3. -/
def exGroupC6 : Group :=
  { id := 7, name := "team", description := none, members := [1, 2, 3],
    admins := [3], createdBy := 3, isOrganizationGroup := false,
    opportunityId := none }

/-- User 3 sends one message to the group, then member 1 fetches the group's
messages (appending a `readBy` entry); member 2 has not fetched. -/
def exStoreC6 : List Message :=
  markGroupMessagesRead 7 1 5
    ((sendGroupMessage exGroupC6 3 "hello" 1 0 []).toOption.getD [])

/-- C6: the unread count `GET /groups` reports for user `u` equals the number
of messages of the group whose `readBy` log does not contain `u` , excluding
messages authored by `u` ; in the 3-member example the message read by member
1 but not member 2 contributes 0 to member 1, 1 to member 2 and 0 to its
author. -/
theorem group_unread_count_correct :
    (∀ (g : GroupId) (u : UserId) (store : List Message),
       groupUnreadCount g u store
         = store.countP (fun m =>
             m.group == some g && !(decide (∃ e ∈ m.readBy, e.user = u))
               && !(m.sender == u)))
  ∧ groupUnreadCount 7 1 exStoreC6 = 0
  ∧ groupUnreadCount 7 2 exStoreC6 = 1
  ∧ groupUnreadCount 7 3 exStoreC6 = 0 := by
  refine ⟨?_, by decide, by decide, by decide⟩
  intro g u store
  unfold groupUnreadCount
  congr 1
  funext m
  by_cases h : ∃ e ∈ m.readBy, e.user = u
  · have hany : m.readBy.any (fun e => e.user == u) = true := by
      rw [List.any_eq_true]
      obtain ⟨e, he, hu⟩ := h
      exact ⟨e, he, by simp [hu]⟩
    simp [hany, h]
  · have hany : m.readBy.any (fun e => e.user == u) = false := by
      rw [List.any_eq_false]
      intro e he hu
      exact h ⟨e, he, by simpa using hu⟩
    simp [hany, h]

/-! ## C10: explicit mark-conversation-read leaves readBy untouched -/

/-- C10: `POST /conversations/:id/read` flips `isRead` on every unread message
from the counterparty to the caller, leaves every other message unchanged,
and never touches any message's `readBy` log — unlike the read-triggering
fetch, as the final conjunct exhibits on a concrete unread message. -/
theorem mark_conversation_read_frame (a b : UserId) (store : List Message) :
    ((markConversationRead a b store).map Message.readBy = store.map Message.readBy)
  ∧ (∀ m ∈ store, m.sender = b → m.receiver = some a → m.isRead = false →
      ({ m with isRead := true } : Message) ∈ markConversationRead a b store)
  ∧ (∀ m ∈ store, ¬(m.sender = b ∧ m.receiver = some a ∧ m.isRead = false) →
      m ∈ markConversationRead a b store)
  ∧ ((markMessagesRead 1 2 5 [mkDirect 1 2 1 3]).map Message.readBy
      ≠ (markConversationRead 1 2 [mkDirect 1 2 1 3]).map Message.readBy) := by
  refine ⟨?_, ?_, ?_, by decide⟩
  · unfold markConversationRead
    rw [List.map_map]
    apply List.map_congr_left
    intro m _
    dsimp only [Function.comp]
    split <;> rfl
  · intro m hm hs hr hread
    unfold markConversationRead
    refine List.mem_map.mpr ⟨m, hm, ?_⟩
    rw [if_pos (by simp [hs, hr, hread])]
  · intro m hm h
    unfold markConversationRead
    refine List.mem_map.mpr ⟨m, hm, ?_⟩
    rw [if_neg (by
      simp only [Bool.and_eq_true, beq_iff_eq]
      rintro ⟨⟨h1, h2⟩, h3⟩
      exact h ⟨h1, h2, h3⟩)]

/-- Witness for C10: the explicit mark-read path flips the example unread
message while its `readBy` log stays as it was. -/
theorem mark_conversation_read_frame_witness :
    ({ mkDirect 1 2 1 3 with isRead := true } : Message)
      ∈ markConversationRead 1 2 [mkDirect 1 2 1 3]
  ∧ (markConversationRead 1 2 [mkDirect 1 2 1 3]).map Message.readBy
      = [mkDirect 1 2 1 3].map Message.readBy :=
  ⟨(mark_conversation_read_frame 1 2 [mkDirect 1 2 1 3]).2.1 (mkDirect 1 2 1 3)
     (by decide) (by decide) (by decide) (by decide),
   (mark_conversation_read_frame 1 2 [mkDirect 1 2 1 3]).1⟩

/-! ## C2: group membership invariants -/

/-- Deduplication preserves membership. -/
theorem mem_dedupKeepFirst {x : UserId} {l : List UserId} :
    x ∈ dedupKeepFirst l ↔ x ∈ l := by
  induction l with
  | nil => simp [dedupKeepFirst]
  | cons a l ih =>
    by_cases hxa : x = a
    · subst hxa
      simp [dedupKeepFirst]
    · simp [dedupKeepFirst, List.mem_filter, hxa, ih]

/-- Shape of a successfully created group. -/
theorem createGroupBody_ok {db : MentorDb} {actor : UserId} {role : Role}
    {newId : GroupId} {name : String} {description : Option String}
    {memberIds : List UserId} {isOrg : Bool} {oppId : Option OppId} {g : Group}
    (h : createGroupBody db actor role newId name description memberIds isOrg oppId
          = .ok g) :
    g.members = dedupKeepFirst (memberIds ++ [actor])
    ∧ g.createdBy = actor
    ∧ g.admins = actor :: mentorIdsOf db g.members oppId := by
  unfold createGroupBody at h
  split at h
  · exact absurd h (by simp)
  · injection h with h
    subst h
    exact ⟨rfl, rfl, rfl⟩

/-- Every successful `POST /groups` goes through `createGroupBody` . -/
theorem createGroup_ok_body {db : MentorDb} {actor : UserId} {role : Role}
    {newId : GroupId} {name : String} {description : Option String}
    {memberIds : List UserId} {isOrg : Bool} {oppId : Option OppId} {g : Group}
    (h : createGroup db actor role newId name description memberIds isOrg oppId
          = .ok g) :
    createGroupBody db actor role newId name description memberIds isOrg oppId
      = .ok g := by
  unfold createGroup at h
  split at h
  · exact absurd h (by simp)
  split at h
  · exact h
  split at h
  · split at h
    · split at h
      · exact h
      · exact absurd h (by simp)
    · split at h
      · exact h
      · exact absurd h (by simp)
  · exact absurd h (by simp)

/-- The `admins ⊆ members` invariant holds in every reachable group state. -/
theorem reachable_admins_subset {db : MentorDb} {g : Group} (h : Reachable db g) :
    ∀ x ∈ g.admins, x ∈ g.members := by
  induction h with
  | created actor role newId name description memberIds isOrg oppId g hok =>
    obtain ⟨hm, _, ha⟩ := createGroupBody_ok (createGroup_ok_body hok)
    intro x hx
    rw [ha] at hx
    rcases List.mem_cons.mp hx with rfl | hx
    · rw [hm]
      exact mem_dedupKeepFirst.mpr (by simp)
    · cases oppId with
      | none => simp [mentorIdsOf] at hx
      | some o => exact (List.mem_filter.mp hx).1
  | updated actor role name description g g' hg hok ih =>
    unfold updateGroup at hok
    split at hok
    · exact absurd hok (by simp)
    · injection hok with hok
      subst hok
      exact ih
  | addedMembers actor role memberIds g g' hg hok ih =>
    unfold addMembers at hok
    split at hok
    · exact absurd hok (by simp)
    split at hok
    · exact absurd hok (by simp)
    · injection hok with hok
      subst hok
      intro x hx
      exact List.mem_append.mpr (Or.inl (ih x hx))
  | removedMember actor role memberId g g' hg hok ih =>
    unfold removeMember at hok
    split at hok
    · exact absurd hok (by simp)
    split at hok
    · exact absurd hok (by simp)
    · injection hok with hok
      subst hok
      intro x hx
      by_cases hmem : (g.admins.any (fun y => y == memberId)) = true
      · rw [if_pos hmem] at hx
        have hxf := List.mem_filter.mp hx
        exact List.mem_filter.mpr ⟨ih x hxf.1, hxf.2⟩
      · rw [if_neg hmem] at hx
        have hxm : ¬(x = memberId) := by
          intro hxe
          exact hmem (List.any_eq_true.mpr ⟨x, hx, by simp [hxe]⟩)
        exact List.mem_filter.mpr ⟨ih x hx, by simpa using hxm⟩

/-- Removing the sole entry of the admins list is always rejected. -/
theorem removeMember_sole_admin {db : MentorDb} {actor : UserId} {role : Role}
    {m : UserId} {g : Group} (h : g.admins = [m]) :
    (removeMember db actor role m g).isOk = false := by
  unfold removeMember
  split
  · rfl
  · rw [if_pos (by simp [h])]
    rfl

/-- A successful removal from a duplicate-free, non-empty admins list leaves
the admins non-empty. -/
theorem removeMember_admins_nonempty {db : MentorDb} {actor : UserId}
    {role : Role} {m : UserId} {g g' : Group}
    (hnd : g.admins.Nodup) (hne : g.admins ≠ [])
    (h : removeMember db actor role m g = .ok g') : g'.admins ≠ [] := by
  unfold removeMember at h
  split at h
  · exact absurd h (by simp)
  split at h
  · exact absurd h (by simp)
  next hsole =>
    injection h with h
    subst h
    show (if (g.admins.any (fun y => y == m)) = true then
            g.admins.filter (fun y => y ≠ m) else g.admins) ≠ []
    by_cases hmem : (g.admins.any (fun y => y == m)) = true
    · rw [if_pos hmem]
      intro hnil
      have hall : ∀ x ∈ g.admins, x = m := by
        intro x hx
        by_contra hxm
        have hmemf : x ∈ g.admins.filter (fun y => y ≠ m) :=
          List.mem_filter.mpr ⟨hx, by simpa using hxm⟩
        rw [hnil] at hmemf
        exact absurd hmemf (List.not_mem_nil x)
      cases hadm : g.admins with
      | nil => exact hne hadm
      | cons a t =>
        rw [hadm] at hall hnd
        have ham : a = m := hall a (by simp)
        cases t with
        | nil =>
          exact hsole (by simp [hadm, ham])
        | cons b t2 =>
          have hbm : b = m := hall b (by simp)
          exact (List.nodup_cons.mp hnd).1 (by simp [ham, hbm])
    · rw [if_neg hmem]
      exact hne

/-- C2 counterexample: the claim fails on the code. A volunteer who is mentor
for opportunity 5 creates a group naming that opportunity; being both creator
and promoted mentor, the admins list is `[1, 1]` . The sole-admin check only
compares against a length-1 list, so removing member 1 succeeds — leaving a
reachable group whose admin set is empty and whose creator is no longer a
member. -/
theorem group_invariants_counterexample :
    createGroup [{ opportunity := 5, volunteer := 1 }] 1 Role.volunteer 9 "g" none
        [2] false (some 5)
      = .ok { id := 9, name := "g", description := none, members := [2, 1],
              admins := [1, 1], createdBy := 1, isOrganizationGroup := false,
              opportunityId := some 5 }
  ∧ removeMember [{ opportunity := 5, volunteer := 1 }] 1 Role.volunteer 1
        { id := 9, name := "g", description := none, members := [2, 1],
          admins := [1, 1], createdBy := 1, isOrganizationGroup := false,
          opportunityId := some 5 }
      = .ok { id := 9, name := "g", description := none, members := [2],
              admins := [], createdBy := 1, isOrganizationGroup := false,
              opportunityId := some 5 }
  ∧ (1 : UserId) ∉ ([2] : List UserId) := by decide

/-- C2 amended: every reachable group state satisfies `admins ⊆ members` ; a
remove-member call whose target is the sole entry of the admins list is always
rejected; and whenever the admins list is duplicate-free and non-empty, every
successful remove-member call leaves it non-empty. (The original claim's
remaining parts — the creator stays a member, and the admin set is non-empty
in every reachable state — are refuted by the counterexample: the creator can
be removed, and a duplicated admins entry defeats the sole-admin check.) -/
theorem group_admin_invariants :
    (∀ (db : MentorDb) (g : Group), Reachable db g → ∀ x ∈ g.admins, x ∈ g.members)
  ∧ (∀ (db : MentorDb) (actor : UserId) (role : Role) (m : UserId) (g : Group),
       g.admins = [m] → (removeMember db actor role m g).isOk = false)
  ∧ (∀ (db : MentorDb) (actor : UserId) (role : Role) (m : UserId) (g g' : Group),
       g.admins.Nodup → g.admins ≠ [] → removeMember db actor role m g = .ok g' →
       g'.admins ≠ []) :=
  ⟨fun _ _ h => reachable_admins_subset h,
   fun _ _ _ _ _ h => removeMember_sole_admin h,
   fun _ _ _ _ _ _ h1 h2 h3 => removeMember_admins_nonempty h1 h2 h3⟩

/-- Witness for the amended C2 at concrete groups: the admin of a freshly
created group is a member; removing the sole admin fails; a successful removal
from the duplicate-free admins list `[1, 2]` leaves admins `[1]` . -/
theorem group_admin_invariants_witness :
    (1 : UserId) ∈ Group.members
      { id := 8, name := "g", description := none, members := [2, 1],
        admins := [1], createdBy := 1, isOrganizationGroup := false,
        opportunityId := none }
  ∧ (removeMember [] 3 Role.admin 1
       { id := 8, name := "s", description := none, members := [1, 2],
         admins := [1], createdBy := 1, isOrganizationGroup := false,
         opportunityId := none }).isOk = false
  ∧ ({ id := 8, name := "t", description := none, members := [1],
       admins := [1], createdBy := 1, isOrganizationGroup := false,
       opportunityId := none } : Group).admins ≠ [] :=
  ⟨group_admin_invariants.1 []
      { id := 8, name := "g", description := none, members := [2, 1],
        admins := [1], createdBy := 1, isOrganizationGroup := false,
        opportunityId := none }
      (Reachable.created 1 .admin 8 "g" none [2] false none _ (by decide))
      1 (by decide),
   group_admin_invariants.2.1 [] 3 .admin 1
      { id := 8, name := "s", description := none, members := [1, 2],
        admins := [1], createdBy := 1, isOrganizationGroup := false,
        opportunityId := none } rfl,
   group_admin_invariants.2.2 [] 3 .admin 2
      { id := 8, name := "t", description := none, members := [1, 2],
        admins := [1, 2], createdBy := 1, isOrganizationGroup := false,
        opportunityId := none }
      { id := 8, name := "t", description := none, members := [1],
        admins := [1], createdBy := 1, isOrganizationGroup := false,
        opportunityId := none }
      (by decide) (by decide) (by decide)⟩

/-! ## C3: who may create a group -/

/-- The mentor condition of the volunteer branch of `POST /groups` : a mentor
assignment for the named opportunity if one is given, else for any. -/
def mentorEligible (db : MentorDb) (actor : UserId) : Option OppId → Bool
  | some o => hasMentorFor db actor o
  | none => hasAnyMentor db actor

/-- C3: with a valid payload, `POST /groups` succeeds exactly for: role
`admin` ; or, when the organization-group flag is off, role `organization` ,
or role `volunteer` with the required mentor assignment. Every other role is
denied, and a set organization-group flag restricts creation to `admin` . -/
theorem create_group_permission (db : MentorDb) (actor : UserId) (role : Role)
    (newId : GroupId) (name : String) (description : Option String)
    (memberIds : List UserId) (isOrgGroup : Bool) (oppId : Option OppId)
    (hname : name ≠ "") :
    (createGroup db actor role newId name description memberIds isOrgGroup
        oppId).isOk = true
      ↔ (role = .admin
         ∨ (isOrgGroup = false
            ∧ (role = .organization
               ∨ (role = .volunteer ∧ mentorEligible db actor oppId = true)))) := by
  unfold createGroup
  rw [if_neg hname]
  cases role with
  | admin => simp [createGroupBody]
  | organization => cases isOrgGroup <;> simp [createGroupBody]
  | volunteer =>
    cases oppId with
    | some o =>
      by_cases hm : hasMentorFor db actor o = true
      · cases isOrgGroup <;> simp [hm, createGroupBody, mentorEligible]
      · rw [Bool.not_eq_true] at hm
        simp [hm, createGroupBody, mentorEligible]
    | none =>
      by_cases hm : hasAnyMentor db actor = true
      · cases isOrgGroup <;> simp [hm, createGroupBody, mentorEligible]
      · rw [Bool.not_eq_true] at hm
        simp [hm, createGroupBody, mentorEligible]
  | mentor => simp
  | unset => simp

/-- Witness for C3: a volunteer holding a mentor assignment for the named
opportunity may create the (non-organization) group. -/
theorem create_group_permission_witness :
    (createGroup [{ opportunity := 5, volunteer := 1 }] 1 Role.volunteer 9 "g" none
        [2] false (some 5)).isOk = true :=
  (create_group_permission [{ opportunity := 5, volunteer := 1 }] 1 Role.volunteer 9
      "g" none [2] false (some 5) (by decide)).mpr (by decide)

/-! ## C4: conversation aggregation -/

/-- `bumpConv` never changes a row's key. -/
theorem bumpConv_key (u : UserId) (k : Option UserId) (m : Message) (e : ConvEntry) :
    (bumpConv u k m e).key = e.key := by
  unfold bumpConv
  split <;> rfl

/-- Unread flags contributed to key `k` by a stream of documents. -/
def convUnread (u : UserId) (k : Option UserId) (msgs : List Message) : Nat :=
  msgs.countP (fun m =>
    otherParty u m == k && decide (m.receiver = some u) && !m.isRead)

/-- `convUnread` over a cons: the head contributes its unread flag exactly
when its key matches. -/
theorem convUnread_cons (u : UserId) (k : Option UserId) (m : Message)
    (rest : List Message) :
    convUnread u k (m :: rest) =
      convUnread u k rest + if otherParty u m = k then unreadFlag u m else 0 := by
  unfold convUnread unreadFlag
  rw [List.countP_cons]
  congr 1
  by_cases hk : otherParty u m = k
  · by_cases hA : m.receiver = some u
    · by_cases hB : m.isRead <;> simp [hk, hA, hB]
    · simp [hk, hA]
  · simp [hk]

/-- How one `$group` step changes the row of key `k` . -/
theorem convFind_insertConv (u : UserId) (acc : List ConvEntry) (m : Message)
    (k : Option UserId) :
    convFind (insertConv u acc m) k =
      if otherParty u m = k then
        match convFind acc k with
        | some e => some { e with unreadCount := e.unreadCount + unreadFlag u m }
        | none => some { key := k, lastMessage := m, unreadCount := unreadFlag u m }
      else convFind acc k := by
  have hcomp : ∀ kk : Option UserId,
      ((fun e : ConvEntry => e.key == kk) ∘ bumpConv u (otherParty u m) m)
        = fun e : ConvEntry => e.key == kk := by
    intro kk
    funext e
    simp [Function.comp, bumpConv_key]
  unfold insertConv convFind
  by_cases hk : otherParty u m = k
  · subst hk
    rw [if_pos rfl]
    by_cases hp : (acc.any fun e => e.key == otherParty u m) = true
    · rw [if_pos hp, List.find?_map, hcomp]
      have hs : (acc.find? (fun e => e.key == otherParty u m)).isSome := by
        rw [List.find?_isSome]
        obtain ⟨x, hx, hpx⟩ := List.any_eq_true.mp hp
        exact ⟨x, hx, hpx⟩
      obtain ⟨e, he⟩ := Option.isSome_iff_exists.mp hs
      rw [he]
      have hek := List.find?_some he
      simp only [Option.map_some']
      unfold bumpConv
      rw [if_pos hek]
    · rw [if_neg hp]
      have hnone : acc.find? (fun e => e.key == otherParty u m) = none := by
        rw [List.find?_eq_none]
        intro x hx hpx
        exact hp (List.any_eq_true.mpr ⟨x, hx, hpx⟩)
      rw [List.find?_append, hnone]
      simp
  · rw [if_neg hk]
    by_cases hp : (acc.any fun e => e.key == otherParty u m) = true
    · rw [if_pos hp, List.find?_map, hcomp]
      cases he : acc.find? (fun e => e.key == k) with
      | none => simp
      | some e =>
        have hek0 := List.find?_some he
        have hek : e.key = k := by simpa using hek0
        have hbe : bumpConv u (otherParty u m) m e = e := by
          unfold bumpConv
          rw [if_neg (by
            simp only [beq_iff_eq]
            intro hq
            exact hk (hq.symm.trans hek))]
        simp [hbe]
    · rw [if_neg hp, List.find?_append]
      have hsingle :
          List.find? (fun e : ConvEntry => e.key == k)
            [{ key := otherParty u m, lastMessage := m,
               unreadCount := unreadFlag u m }] = none := by
        simp [hk]
      rw [hsingle, Option.or_none]

/-- The accumulated `$group` output row for key `k` : the `$first` document of
the stream with that key, and the summed unread flags. -/
theorem convFind_foldl (u : UserId) (k : Option UserId) (msgs : List Message) :
    ∀ acc : List ConvEntry,
      convFind (msgs.foldl (insertConv u) acc) k =
        match convFind acc k with
        | some e => some { e with unreadCount := e.unreadCount + convUnread u k msgs }
        | none =>
          match msgs.find? (fun m => otherParty u m == k) with
          | some m0 => some { key := k, lastMessage := m0,
                              unreadCount := convUnread u k msgs }
          | none => none := by
  induction msgs with
  | nil =>
    intro acc
    cases he : convFind acc k <;> simp [he, convUnread]
  | cons m rest ih =>
    intro acc
    rw [List.foldl_cons, ih (insertConv u acc m), convFind_insertConv]
    by_cases hk : otherParty u m = k
    · rw [if_pos hk]
      cases he : convFind acc k with
      | some e =>
        simp only
        rw [convUnread_cons, if_pos hk]
        have harith : e.unreadCount + unreadFlag u m + convUnread u k rest
            = e.unreadCount + (convUnread u k rest + unreadFlag u m) := by omega
        rw [harith]
      | none =>
        simp only
        rw [List.find?_cons_of_pos _ (by simp [hk]), convUnread_cons, if_pos hk,
          Nat.add_comm (convUnread u k rest) (unreadFlag u m)]
    · rw [if_neg hk, convUnread_cons, if_neg hk, Nat.add_zero,
        List.find?_cons_of_neg _ (by simp [hk])]

/-- The keys produced by one `$group` step. -/
theorem insertConv_keys (u : UserId) (acc : List ConvEntry) (m : Message) :
    (insertConv u acc m).map ConvEntry.key =
      if (acc.any fun e => e.key == otherParty u m) = true then
        acc.map ConvEntry.key
      else acc.map ConvEntry.key ++ [otherParty u m] := by
  unfold insertConv
  by_cases hp : (acc.any fun e => e.key == otherParty u m) = true
  · rw [if_pos hp, if_pos hp, List.map_map]
    exact List.map_congr_left fun e _ => bumpConv_key u (otherParty u m) m e
  · rw [if_neg hp, if_neg hp, List.map_append]
    rfl

/-- The aggregation never emits two rows with the same key. -/
theorem foldl_keys_nodup (u : UserId) (msgs : List Message) :
    ∀ acc : List ConvEntry, (acc.map ConvEntry.key).Nodup →
      ((msgs.foldl (insertConv u) acc).map ConvEntry.key).Nodup := by
  induction msgs with
  | nil => exact fun acc h => h
  | cons m rest ih =>
    intro acc h
    rw [List.foldl_cons]
    apply ih
    rw [insertConv_keys]
    by_cases hp : (acc.any fun e => e.key == otherParty u m) = true
    · rw [if_pos hp]
      exact h
    · rw [if_neg hp]
      have hno : otherParty u m ∉ acc.map ConvEntry.key := by
        intro hin
        rcases List.mem_map.mp hin with ⟨e, he, hek⟩
        exact hp (List.any_eq_true.mpr ⟨e, he, by simp [hek]⟩)
      simp [List.nodup_append, h, hno]

/-- With duplicate-free keys, membership determines the `find?` result. -/
theorem convFind_of_mem {acc : List ConvEntry} {k : Option UserId} {e : ConvEntry}
    (hnd : (acc.map ConvEntry.key).Nodup) (he : e ∈ acc) (hk : e.key = k) :
    convFind acc k = some e := by
  unfold convFind
  induction acc with
  | nil => cases he
  | cons a t ih =>
    rcases List.mem_cons.mp he with rfl | het
    · rw [List.find?_cons_of_pos _ (by simp [hk])]
    · have hnd2 : (ConvEntry.key a :: List.map ConvEntry.key t).Nodup := by
        rw [List.map_cons] at hnd
        exact hnd
      have hka : (a.key == k) = false := by
        simp only [beq_eq_false_iff_ne, ne_eq]
        intro hak
        apply (List.nodup_cons.mp hnd2).1
        rw [hak, ← hk]
        exact List.mem_map.mpr ⟨e, het, rfl⟩
      simp only [List.find?_cons, hka]
      exact ih (List.nodup_cons.mp hnd2).2 het

/-- The claim's pair-thread description coincides with the pipeline's
`$match` -plus-key combination. -/
theorem inPairThread_iff {u k : UserId} {m : Message} :
    inPairThread u k m = true ↔ (convMatch u m = true ∧ otherParty u m = some k) := by
  simp only [inPairThread, convMatch, Bool.and_eq_true, Bool.or_eq_true, beq_iff_eq]
  constructor
  · rintro ⟨hg, ⟨hs, hr⟩ | ⟨hs, hr⟩⟩
    · exact ⟨⟨Or.inl hs, hg⟩, by simp [otherParty, hs, hr]⟩
    · refine ⟨⟨Or.inr hr, hg⟩, ?_⟩
      unfold otherParty
      by_cases hsu : m.sender = u
      · rw [if_pos hsu, hr, hsu.symm.trans hs]
      · rw [if_neg hsu, hs]
  · rintro ⟨⟨hs | hr, hg⟩, hop⟩
    · refine ⟨hg, Or.inl ⟨hs, ?_⟩⟩
      unfold otherParty at hop
      rw [if_pos hs] at hop
      exact hop
    · by_cases hsu : m.sender = u
      · refine ⟨hg, Or.inl ⟨hsu, ?_⟩⟩
        unfold otherParty at hop
        rw [if_pos hsu] at hop
        exact hop
      · unfold otherParty at hop
        rw [if_neg hsu] at hop
        exact ⟨hg, Or.inr ⟨Option.some.inj hop, hr⟩⟩

/-- In a reverse-chronologically sorted list, the first hit of `find?` has the
maximal timestamp among all hits. -/
theorem find?_createdAt_max {p : Message → Bool} :
    ∀ {l : List Message}, l.Pairwise MsgGe → ∀ {a : Message}, l.find? p = some a →
      ∀ b ∈ l, p b = true → b.createdAt ≤ a.createdAt := by
  intro l
  induction l with
  | nil =>
    intro _ a h
    cases h
  | cons x xs ih =>
    intro hp a hf b hb hpb
    rcases List.pairwise_cons.mp hp with ⟨hx, hxs⟩
    by_cases hpx : p x = true
    · rw [List.find?_cons_of_pos _ hpx] at hf
      injection hf with hf
      subst hf
      rcases List.mem_cons.mp hb with rfl | hbt
      · exact Nat.le_refl _
      · exact hx b hbt
    · rw [List.find?_cons_of_neg _ hpx] at hf
      rcases List.mem_cons.mp hb with rfl | hbt
      · exact absurd hpb hpx
      · exact ih hxs hf b hbt hpb

/-- C4: `GET /conversations` for user `u` has a row with key `k` exactly when
some non-group message pairs `u` with `k` ; every such row's last message is a
member of the store's (u, k)-pair-thread with the maximal creation timestamp,
and its unread count is the number of pair-thread messages where `u` is the
receiver and the message is unread. The final conjunct instantiates the
claim's example: with messages A→B, B→A, A→C the list for A has exactly the
two entries C and B. -/
theorem conversations_correct (u k : UserId) (store : List Message) :
    ((∃ e ∈ getConversations u store, e.key = some k)
       ↔ (∃ m ∈ store, inPairThread u k m = true))
  ∧ (∀ e ∈ getConversations u store, e.key = some k →
       e.lastMessage ∈ store
       ∧ inPairThread u k e.lastMessage = true
       ∧ (∀ m ∈ store, inPairThread u k m = true →
           m.createdAt ≤ e.lastMessage.createdAt)
       ∧ e.unreadCount = store.countP
           (fun m => inPairThread u k m && decide (m.receiver = some u) && !m.isRead))
  ∧ ((getConversations 1
        [mkDirect 1 1 2 1, mkDirect 2 2 1 2, mkDirect 3 1 3 3]).map ConvEntry.key
      = [some 3, some 2]) := by
  have hperm : List.Perm (sortByCreatedAtDesc (store.filter (convMatch u)))
      (store.filter (convMatch u)) := List.perm_insertionSort _ _
  have hsorted : List.Pairwise MsgGe (sortByCreatedAtDesc (store.filter (convMatch u))) :=
    List.sorted_insertionSort _ _
  have hmain := convFind_foldl u (some k)
    (sortByCreatedAtDesc (store.filter (convMatch u))) []
  rw [show convFind [] (some k) = none from rfl] at hmain
  have h2 : convFind (getConversations u store) (some k)
      = match (sortByCreatedAtDesc (store.filter (convMatch u))).find?
          (fun m => otherParty u m == some k) with
        | some m0 =>
          some { key := some k, lastMessage := m0,
                 unreadCount := convUnread u (some k)
                   (sortByCreatedAtDesc (store.filter (convMatch u))) }
        | none => none := hmain
  have hmem_sorted : ∀ m : Message,
      m ∈ sortByCreatedAtDesc (store.filter (convMatch u))
        ↔ (m ∈ store ∧ convMatch u m = true) := by
    intro m
    rw [hperm.mem_iff, List.mem_filter]
  refine ⟨?_, ?_, by decide⟩
  · constructor
    · rintro ⟨e, he, hek⟩
      have hnd : ((getConversations u store).map ConvEntry.key).Nodup :=
        foldl_keys_nodup u _ [] (by simp)
      have hfind := convFind_of_mem hnd he hek
      rw [h2] at hfind
      cases hf : (sortByCreatedAtDesc (store.filter (convMatch u))).find?
          (fun m => otherParty u m == some k) with
      | none =>
        rw [hf] at hfind
        exact absurd hfind (by simp)
      | some m0 =>
        have hm0 := (hmem_sorted m0).mp (List.mem_of_find?_eq_some hf)
        have hp0 := List.find?_some hf
        exact ⟨m0, hm0.1, inPairThread_iff.mpr ⟨hm0.2, by simpa using hp0⟩⟩
    · rintro ⟨m, hm, hpm⟩
      obtain ⟨hcm, hop⟩ := inPairThread_iff.mp hpm
      have hsome : ((sortByCreatedAtDesc (store.filter (convMatch u))).find?
          (fun m => otherParty u m == some k)).isSome := by
        rw [List.find?_isSome]
        exact ⟨m, (hmem_sorted m).mpr ⟨hm, hcm⟩, by simp [hop]⟩
      obtain ⟨m0, hf⟩ := Option.isSome_iff_exists.mp hsome
      have hfind : convFind (getConversations u store) (some k)
          = some { key := some k, lastMessage := m0,
                   unreadCount := convUnread u (some k)
                     (sortByCreatedAtDesc (store.filter (convMatch u))) } := by
        rw [h2, hf]
      exact ⟨_, List.mem_of_find?_eq_some hfind, rfl⟩
  · intro e he hek
    have hnd : ((getConversations u store).map ConvEntry.key).Nodup :=
      foldl_keys_nodup u _ [] (by simp)
    have hfind := convFind_of_mem hnd he hek
    rw [h2] at hfind
    cases hf : (sortByCreatedAtDesc (store.filter (convMatch u))).find?
        (fun m => otherParty u m == some k) with
    | none =>
      rw [hf] at hfind
      exact absurd hfind (by simp)
    | some m0 =>
      rw [hf] at hfind
      injection hfind with hfind
      subst hfind
      have hm0 := (hmem_sorted m0).mp (List.mem_of_find?_eq_some hf)
      have hp0 := List.find?_some hf
      have hpair0 : inPairThread u k m0 = true :=
        inPairThread_iff.mpr ⟨hm0.2, by simpa using hp0⟩
      refine ⟨hm0.1, hpair0, ?_, ?_⟩
      · intro m hm hpm
        obtain ⟨hcm, hop⟩ := inPairThread_iff.mp hpm
        exact find?_createdAt_max hsorted hf m
          ((hmem_sorted m).mpr ⟨hm, hcm⟩) (by simp [hop])
      · show convUnread u (some k) (sortByCreatedAtDesc (store.filter (convMatch u))) = _
        unfold convUnread
        rw [hperm.countP_eq, List.countP_filter]
        apply List.countP_congr
        intro m _
        simp only [Bool.and_eq_true, beq_iff_eq, inPairThread_iff,
          decide_eq_true_eq]
        constructor
        · rintro ⟨⟨⟨hop, hrcv⟩, hrd⟩, hcm⟩
          exact ⟨⟨⟨hcm, hop⟩, hrcv⟩, hrd⟩
        · rintro ⟨⟨⟨hcm, hop⟩, hrcv⟩, hrd⟩
          exact ⟨⟨⟨hop, hrcv⟩, hrd⟩, hcm⟩

/-- Witness for C4 on the example store A→B, B→A, A→C: user 1's list has an
entry for counterparty 2, whose last message is B→A (a member of the store). -/
theorem conversations_correct_witness :
    (∃ e ∈ getConversations 1 [mkDirect 1 1 2 1, mkDirect 2 2 1 2, mkDirect 3 1 3 3],
       e.key = some 2)
  ∧ mkDirect 2 2 1 2 ∈ [mkDirect 1 1 2 1, mkDirect 2 2 1 2, mkDirect 3 1 3 3] :=
  ⟨(conversations_correct 1 2
      [mkDirect 1 1 2 1, mkDirect 2 2 1 2, mkDirect 3 1 3 3]).1.mpr
      ⟨mkDirect 1 1 2 1, by decide, by decide⟩,
   ((conversations_correct 1 2
      [mkDirect 1 1 2 1, mkDirect 2 2 1 2, mkDirect 3 1 3 3]).2.1
      { key := some 2, lastMessage := mkDirect 2 2 1 2, unreadCount := 1 }
      (by decide) (by decide)).1⟩

end ILeap
